import Mathlib

/-!
# Verification of the SpectralPhysics-Lab oscillator/LDOS core

Shallow embedding of the discrete oscillator-network engine and the
LDOS-based anomaly-detection pipeline of SpectralPhysics-Lab, together
with proofs of the behavioural properties claimed by its specification.

Conventions of the embedding:
* Python floats are modelled by `ℚ` wherever the code only adds,
  subtracts, multiplies, divides and compares; `Real.sqrt` is applied at
  the single points where the code takes a square root.
* NumPy arrays are modelled by `List ℚ` (or `List (List ℚ)` for 2-D
  arrays); dense matrices produced by assembly loops are modelled as
  total functions from index (pairs) to `ℚ`, zero outside the assembled
  block.
* Python exceptions are modelled by `Except String`; the message keeps
  the exception class (`ValueError: ...`, `IndexError: ...`).
* A Python loop that writes each mutable cell at most once is modelled
  by a `Finset.sum` of per-iteration contributions (the sum has at most
  one non-zero summand per cell, so `=`-assignment and `+=` coincide).
-/

/-- A Python "scalar or 1-D array" duck-typed numeric parameter
(`medium_1d.py` accepts both shapes for `k` and `m`). -/
inductive PyParam where
  | scalar (x : ℚ)
  | arr (xs : List ℚ)
deriving DecidableEq

/-- `np.any(np.asarray(p) <= 0)` on a scalar-or-array parameter. -/
def PyParam.anyNonpos : PyParam → Bool
  | .scalar x => decide (x ≤ 0)
  | .arr xs => xs.any (fun x => decide (x ≤ 0))

/-- `np.any(np.asarray(p) < 0)` on a scalar-or-array parameter. -/
def PyParam.anyNeg : PyParam → Bool
  | .scalar x => decide (x < 0)
  | .arr xs => xs.any (fun x => decide (x < 0))

/-- `medium_1d.OscillatorChain1D`: linear chain of coupled oscillators
(fields of the dataclass; `n` oscillators, stiffness `k`, mass `m`,
damping `gamma`). -/
structure OscillatorChain1D where
  n : ℕ
  k : PyParam
  m : PyParam
  gamma : ℚ
deriving DecidableEq

/-- `OscillatorChain1D.__post_init__` (`medium_1d.py` lines 22-36):
validation performed by the dataclass constructor.  Returns the
constructed chain or the `ValueError` raised. -/
def mkOscillatorChain1D (n : ℕ) (k m : PyParam) (gamma : ℚ) :
    Except String OscillatorChain1D :=
  if n < 1 then .error "ValueError: Number of oscillators must be >= 1"
  else if m.anyNonpos then .error "ValueError: Mass must be positive"
  else if k.anyNeg then .error "ValueError: Stiffness must be non-negative"
  else if gamma < 0 then .error "ValueError: Damping must be non-negative"
  else .ok ⟨n, k, m, gamma⟩

/-- The spring list `k_vals` built inside
`OscillatorChain1D.stiffness_matrix` (`medium_1d.py` lines 73-88):
`k_vals` has length `n+1`; `k_vals[i]` is the spring between node `i-1`
and node `i` (index `0` = left wall spring, index `n` = right wall
spring).  A scalar stiffness is broadcast to every spring; an array of
length `n-1` is padded by replicating its edge values (`k_arr[0]` on an
empty array raises `IndexError`, which only happens for `n = 1`); an
array of length `n+1` is taken verbatim; any other array length raises
`ValueError`. -/
def kVals (n : ℕ) : PyParam → Except String (List ℚ)
  | .scalar x => .ok (List.replicate (n + 1) x)
  | .arr xs =>
    if xs.length + 1 = n then
      match xs with
      | [] => .error "IndexError: index 0 is out of bounds"
      | y :: ys => .ok (y :: (y :: ys) ++ [(y :: ys).getLast (by simp)])
    else if xs.length = n + 1 then .ok xs
    else .error "ValueError: Stiffness array length must be n-1 or n+1"

/-- Contribution of loop iteration `t` of the assembly loop in
`OscillatorChain1D.stiffness_matrix` (`medium_1d.py` lines 101-114) to
entry `(i, j)` of `K`: iteration `t` adds `k_vals[t] + k_vals[t+1]` to
`K[t,t]`, writes `K[t,t-1] = -k_vals[t]` when `t > 0` and
`K[t,t+1] = -k_vals[t+1]` when `t < n-1`. -/
def chainContrib (kv : List ℚ) (n t i j : ℕ) : ℚ :=
  (if i = t ∧ j = t then kv.getD t 0 + kv.getD (t + 1) 0 else 0)
    + (if i = t ∧ 0 < t ∧ j + 1 = t then -(kv.getD t 0) else 0)
    + (if i = t ∧ t + 1 < n ∧ j = t + 1 then -(kv.getD (t + 1) 0) else 0)

/-- `OscillatorChain1D.stiffness_matrix` (`medium_1d.py` lines 38-116):
the `n × n` stiffness matrix as a total function on indices (zero
outside the assembled block), or the exception raised while
interpreting the stiffness parameter. -/
def OscillatorChain1D.stiffness_matrix (c : OscillatorChain1D) :
    Except String (ℕ → ℕ → ℚ) :=
  (kVals c.n c.k).map
    (fun kv i j => ∑ t ∈ Finset.range c.n, chainContrib kv c.n t i j)

/-- Closed form of one row of the 1-D assembly: iteration `t` only
writes row `t`. -/
theorem chain_entry_eq (kv : List ℚ) (n i j : ℕ) :
    (∑ t ∈ Finset.range n, chainContrib kv n t i j)
      = if i < n then chainContrib kv n i i j else 0 := by
  by_cases hi : i < n
  · rw [if_pos hi]
    refine Finset.sum_eq_single_of_mem i (Finset.mem_range.2 hi) ?_
    intro b _ hb
    simp only [chainContrib]
    rw [if_neg, if_neg, if_neg] <;> simp [Ne.symm hb]
  · rw [if_neg hi]
    refine Finset.sum_eq_zero ?_
    intro t ht
    have : i ≠ t := by
      intro h
      exact hi (h ▸ Finset.mem_range.1 ht)
    simp [chainContrib, this]

theorem chain_entry_diag (kv : List ℚ) (n i : ℕ) (hi : i < n) :
    (∑ t ∈ Finset.range n, chainContrib kv n t i i)
      = kv.getD i 0 + kv.getD (i + 1) 0 := by
  rw [chain_entry_eq, if_pos hi]
  unfold chainContrib
  split_ifs with h1 h2 h3 <;> first | ring1 | (exfalso; omega)

theorem chain_entry_sub (kv : List ℚ) (n i : ℕ) (hi : i + 1 < n) :
    (∑ t ∈ Finset.range n, chainContrib kv n t (i + 1) i)
      = -(kv.getD (i + 1) 0) := by
  rw [chain_entry_eq, if_pos (by omega)]
  unfold chainContrib
  split_ifs with h1 h2 h3 <;> first | ring1 | (exfalso; omega)

theorem chain_entry_super (kv : List ℚ) (n i : ℕ) (hi : i + 1 < n) :
    (∑ t ∈ Finset.range n, chainContrib kv n t i (i + 1))
      = -(kv.getD (i + 1) 0) := by
  rw [chain_entry_eq, if_pos (by omega)]
  unfold chainContrib
  split_ifs with h1 h2 h3 <;> first | ring1 | (exfalso; omega)

theorem chain_entry_far (kv : List ℚ) (n i j : ℕ)
    (h : i + 2 ≤ j ∨ j + 2 ≤ i) :
    (∑ t ∈ Finset.range n, chainContrib kv n t i j) = 0 := by
  rw [chain_entry_eq]
  by_cases hi : i < n
  · rw [if_pos hi]
    unfold chainContrib
    split_ifs with h1 h2 h3 <;> first | ring1 | (exfalso; omega)
  · exact if_neg hi

theorem chain_symm (kv : List ℚ) (n i j : ℕ) :
    (∑ t ∈ Finset.range n, chainContrib kv n t i j)
      = (∑ t ∈ Finset.range n, chainContrib kv n t j i) := by
  rcases Nat.lt_trichotomy i j with h | h | h
  · rcases Nat.lt_or_ge j (i + 2) with h2 | h2
    · have hj : j = i + 1 := by omega
      subst hj
      by_cases hin : i + 1 < n
      · rw [chain_entry_super kv n i hin, chain_entry_sub kv n i hin]
      · rw [chain_entry_eq, chain_entry_eq]
        by_cases hi : i < n
        · rw [if_pos hi, if_neg (by omega)]
          simp only [chainContrib]
          rw [if_neg (by omega), if_neg (by omega), if_neg (by omega)]
          ring
        · rw [if_neg hi, if_neg (by omega)]
    · rw [chain_entry_far kv n i j (Or.inl h2),
        chain_entry_far kv n j i (Or.inr h2)]
  · subst h; rfl
  · rcases Nat.lt_or_ge i (j + 2) with h2 | h2
    · have hi : i = j + 1 := by omega
      subst hi
      by_cases hjn : j + 1 < n
      · rw [chain_entry_super kv n j hjn, chain_entry_sub kv n j hjn]
      · rw [chain_entry_eq, chain_entry_eq]
        by_cases hj : j < n
        · rw [if_pos hj, if_neg (by omega)]
          simp only [chainContrib]
          rw [if_neg (by omega), if_neg (by omega), if_neg (by omega)]
          ring
        · rw [if_neg hj, if_neg (by omega)]
    · rw [chain_entry_far kv n i j (Or.inr h2),
        chain_entry_far kv n j i (Or.inl h2)]

theorem exceptMap_ok {α β : Type} (f : α → β) (e : Except String α) (b : β)
    (h : e.map f = .ok b) : ∃ a, e = .ok a ∧ b = f a := by
  cases e with
  | error msg => simp [Except.map] at h
  | ok a =>
    refine ⟨a, rfl, ?_⟩
    simpa [Except.map] using h.symm

theorem getD_replicate_of_lt (x : ℚ) (m i : ℕ) (h : i < m) :
    (List.replicate m x).getD i 0 = x := by
  rw [List.getD_eq_getElem _ _ (by simpa using h)]
  simp

theorem kVals_scalar (n : ℕ) (x : ℚ) :
    kVals n (.scalar x) = .ok (List.replicate (n + 1) x) := rfl

theorem kVals_arr_pad (n : ℕ) (xs : List ℚ) (hlen : xs.length + 1 = n)
    (hne : xs ≠ []) :
    kVals n (.arr xs)
      = .ok (xs.getD 0 0 :: xs ++ [xs.getD (xs.length - 1) 0]) := by
  cases xs with
  | nil => exact absurd rfl hne
  | cons y ys =>
    simp only [kVals, hlen, if_pos]
    congr 1
    have hlt : (y :: ys).length - 1 < (y :: ys).length :=
      Nat.sub_lt (by simp) (by norm_num)
    have hlast : (y :: ys).getLast (by simp)
        = (y :: ys).getD ((y :: ys).length - 1) 0 := by
      rw [List.getD_eq_getElem _ _ hlt, List.getLast_eq_getElem]
    rw [hlast]
    simp

theorem kVals_arr_full (n : ℕ) (xs : List ℚ) (hlen : xs.length = n + 1) :
    kVals n (.arr xs) = .ok xs := by
  simp only [kVals]
  rw [if_neg (by omega), if_pos hlen]

theorem kVals_arr_bad (n : ℕ) (xs : List ℚ) (h1 : xs.length + 1 ≠ n)
    (h2 : xs.length ≠ n + 1) :
    kVals n (.arr xs)
      = .error "ValueError: Stiffness array length must be n-1 or n+1" := by
  simp only [kVals]
  rw [if_neg h1, if_neg h2]

theorem padded_getD_zero (x0 xl : ℚ) (xs : List ℚ) :
    (x0 :: xs ++ [xl]).getD 0 0 = x0 := by
  rw [List.getD_append _ _ _ _ (by simp)]
  rfl

theorem padded_getD_succ (x0 xl : ℚ) (xs : List ℚ) (i : ℕ)
    (h : i < xs.length) :
    (x0 :: xs ++ [xl]).getD (i + 1) 0 = xs.getD i 0 := by
  rw [List.getD_append _ _ _ _ (by simp; omega), List.getD_cons_succ]

theorem padded_getD_last (x0 xl : ℚ) (xs : List ℚ) :
    (x0 :: xs ++ [xl]).getD (xs.length + 1) 0 = xl := by
  rw [List.getD_append_right _ _ _ _ (by simp)]
  simp

/-- **C2 (counterexample).** The claim fails on part of its scope: the
chain `n = 1` with the per-edge stiffness array `k = []` (length
`n-1 = 0`) passes construction-time validation, yet `stiffness_matrix()`
raises `IndexError` at the edge-padding step (`k_vals[0] = k_arr[0]` on
an empty array, `medium_1d.py` line 83) instead of returning a
matrix. -/
theorem chain1d_stiffness_counterexample :
    mkOscillatorChain1D 1 (.arr []) (.scalar 1) 0
      = .ok ⟨1, .arr [], .scalar 1, 0⟩
    ∧ (⟨1, .arr [], .scalar 1, 0⟩ : OscillatorChain1D).stiffness_matrix
      = .error "IndexError: index 0 is out of bounds" :=
  ⟨rfl, rfl⟩

/-- **C2 (amended).** For every valid `OscillatorChain1D` except one
case, `stiffness_matrix()` succeeds and returns a symmetric tridiagonal
`n × n` matrix whose diagonal entry `i` is the sum of the two spring
constants adjoining node `i` and whose off-diagonal entries are the
negated adjoining spring constant: for scalar `k` (any `n ≥ 1`) every
spring, walls included, equals `k`; for a per-edge array of length
`n-1` with `n ≥ 2` the left wall spring is `k[0]` and the right wall
spring is `k[n-2]`.  The exception, forced by the counterexample, is
the valid chain `n = 1` with the empty per-edge array, where
`stiffness_matrix()` raises `IndexError` instead of returning a
matrix. -/
theorem chain1d_stiffness_spec (c : OscillatorChain1D) (hn : 1 ≤ c.n) :
    (∀ K, c.stiffness_matrix = .ok K →
        (∀ i j, K i j = K j i) ∧ (∀ i j, i + 2 ≤ j → K i j = 0))
    ∧ (∀ x, c.k = .scalar x →
        ∃ K, c.stiffness_matrix = .ok K
          ∧ (∀ i, i < c.n → K i i = x + x)
          ∧ (∀ i, i + 1 < c.n → K i (i + 1) = -x))
    ∧ (∀ xs, c.k = .arr xs → xs.length + 1 = c.n → 2 ≤ c.n →
        ∃ K, c.stiffness_matrix = .ok K
          ∧ (∀ i, i < c.n → K i i
              = (if i = 0 then xs.getD 0 0 else xs.getD (i - 1) 0)
                + (if i + 1 = c.n then xs.getD (c.n - 2) 0
                  else xs.getD i 0))
          ∧ (∀ i, i + 1 < c.n → K i (i + 1) = -(xs.getD i 0)))
    ∧ (∀ xs, c.k = .arr xs → xs.length + 1 = c.n → c.n = 1 →
        c.stiffness_matrix
          = .error "IndexError: index 0 is out of bounds") := by
  refine ⟨?_, ?_, ?_, ?_⟩
  · intro K hK
    simp only [OscillatorChain1D.stiffness_matrix] at hK
    obtain ⟨kv, hkv, hKfun⟩ := exceptMap_ok _ _ _ hK
    have hKij : ∀ i j, K i j
        = ∑ t ∈ Finset.range c.n, chainContrib kv c.n t i j := by
      intro i j
      simp only [hKfun]
    exact ⟨fun i j => by rw [hKij i j, hKij j i]; exact chain_symm kv c.n i j,
      fun i j h => by
        rw [hKij i j]
        exact chain_entry_far kv c.n i j (Or.inl h)⟩
  · intro x hx
    refine ⟨fun i j => ∑ t ∈ Finset.range c.n,
        chainContrib (List.replicate (c.n + 1) x) c.n t i j, ?_, ?_, ?_⟩
    · simp only [OscillatorChain1D.stiffness_matrix, hx, kVals_scalar,
        Except.map]
    · intro i hi
      show (∑ t ∈ Finset.range c.n,
          chainContrib (List.replicate (c.n + 1) x) c.n t i i) = x + x
      rw [chain_entry_diag _ _ _ hi,
        getD_replicate_of_lt _ _ _ (by omega),
        getD_replicate_of_lt _ _ _ (by omega)]
    · intro i hi
      show (∑ t ∈ Finset.range c.n,
          chainContrib (List.replicate (c.n + 1) x) c.n t i (i + 1)) = -x
      rw [chain_entry_super _ _ _ hi,
        getD_replicate_of_lt _ _ _ (by omega)]
  · intro xs hx hlen h2
    have hne : xs ≠ [] := by
      intro hnil
      subst hnil
      simp at hlen
      omega
    refine ⟨fun i j => ∑ t ∈ Finset.range c.n,
        chainContrib (xs.getD 0 0 :: xs ++ [xs.getD (xs.length - 1) 0])
          c.n t i j, ?_, ?_, ?_⟩
    · simp only [OscillatorChain1D.stiffness_matrix, hx,
        kVals_arr_pad _ _ hlen hne, Except.map]
    · intro i hi
      show (∑ t ∈ Finset.range c.n,
          chainContrib (xs.getD 0 0 :: xs ++ [xs.getD (xs.length - 1) 0])
            c.n t i i) = _
      rw [chain_entry_diag _ _ _ hi]
      congr 1
      · by_cases hi0 : i = 0
        · subst hi0
          rw [padded_getD_zero, if_pos rfl]
        · obtain ⟨j, rfl⟩ : ∃ j, i = j + 1 := ⟨i - 1, by omega⟩
          rw [padded_getD_succ _ _ _ _ (by omega), if_neg hi0]
          congr 1 <;> omega
      · by_cases hin : i + 1 = c.n
        · have hieq : i + 1 = xs.length + 1 := by omega
          rw [if_pos hin, hieq, padded_getD_last]
          congr 1 <;> omega
        · rw [padded_getD_succ _ _ _ _ (by omega), if_neg hin]
    · intro i hi
      show (∑ t ∈ Finset.range c.n,
          chainContrib (xs.getD 0 0 :: xs ++ [xs.getD (xs.length - 1) 0])
            c.n t i (i + 1)) = _
      rw [chain_entry_super _ _ _ hi, padded_getD_succ _ _ _ _ (by omega)]
  · intro xs hx hlen h1
    have hxs : xs = [] := by
      rw [← List.length_eq_zero]
      omega
    subst hxs
    simp only [OscillatorChain1D.stiffness_matrix, hx]
    rw [h1]
    rfl

def chainW : OscillatorChain1D := ⟨3, .arr [2, 5], .scalar 1, 0⟩

theorem chain1d_stiffness_spec_witness :
    1 ≤ chainW.n
    ∧ ((∀ K, chainW.stiffness_matrix = .ok K →
          (∀ i j, K i j = K j i) ∧ (∀ i j, i + 2 ≤ j → K i j = 0))
      ∧ (∀ x, chainW.k = .scalar x →
          ∃ K, chainW.stiffness_matrix = .ok K
            ∧ (∀ i, i < chainW.n → K i i = x + x)
            ∧ (∀ i, i + 1 < chainW.n → K i (i + 1) = -x))
      ∧ (∀ xs, chainW.k = .arr xs → xs.length + 1 = chainW.n →
          2 ≤ chainW.n →
          ∃ K, chainW.stiffness_matrix = .ok K
            ∧ (∀ i, i < chainW.n → K i i
                = (if i = 0 then xs.getD 0 0 else xs.getD (i - 1) 0)
                  + (if i + 1 = chainW.n then xs.getD (chainW.n - 2) 0
                    else xs.getD i 0))
            ∧ (∀ i, i + 1 < chainW.n → K i (i + 1) = -(xs.getD i 0)))
      ∧ (∀ xs, chainW.k = .arr xs → xs.length + 1 = chainW.n →
          chainW.n = 1 →
          chainW.stiffness_matrix
            = .error "IndexError: index 0 is out of bounds")) :=
  ⟨by norm_num [chainW],
    chain1d_stiffness_spec chainW (by norm_num [chainW])⟩

/-- **C9.** `OscillatorChain1D.stiffness_matrix()` additionally accepts a
stiffness array of length `n+1`, interpreted as the full list of springs
including the two wall springs (entry `0` is the left wall spring, entry
`n` the right wall spring: diagonal entry `i` is `k[i] + k[i+1]`), and
raises a `ValueError` for a stiffness array of any length other than
`n-1` or `n+1`. -/
theorem chain1d_full_spring_list_spec (c : OscillatorChain1D)
    (xs : List ℚ) (hk : c.k = .arr xs) :
    (xs.length + 1 ≠ c.n → xs.length ≠ c.n + 1 →
      c.stiffness_matrix
        = .error "ValueError: Stiffness array length must be n-1 or n+1")
    ∧ (xs.length = c.n + 1 →
      ∃ K, c.stiffness_matrix = .ok K
        ∧ (∀ i, i < c.n → K i i = xs.getD i 0 + xs.getD (i + 1) 0)
        ∧ (∀ i, i + 1 < c.n →
            K i (i + 1) = -(xs.getD (i + 1) 0)
            ∧ K (i + 1) i = -(xs.getD (i + 1) 0))) := by
  constructor
  · intro h1 h2
    simp only [OscillatorChain1D.stiffness_matrix, hk,
      kVals_arr_bad c.n xs h1 h2, Except.map]
  · intro hfull
    refine ⟨fun i j => ∑ t ∈ Finset.range c.n, chainContrib xs c.n t i j,
      ?_, ?_, ?_⟩
    · simp only [OscillatorChain1D.stiffness_matrix, hk,
        kVals_arr_full c.n xs hfull, Except.map]
    · intro i hi
      exact chain_entry_diag xs c.n i hi
    · intro i hi
      exact ⟨chain_entry_super xs c.n i hi, chain_entry_sub xs c.n i hi⟩

def chainFullW : OscillatorChain1D := ⟨2, .arr [1, 2, 3], .scalar 1, 0⟩

theorem chain1d_full_spring_list_spec_witness :
    chainFullW.k = .arr [1, 2, 3]
    ∧ (((1 : ℚ) :: [2, 3]).length + 1 ≠ chainFullW.n →
        ((1 : ℚ) :: [2, 3]).length ≠ chainFullW.n + 1 →
        chainFullW.stiffness_matrix
          = .error "ValueError: Stiffness array length must be n-1 or n+1")
    ∧ (((1 : ℚ) :: [2, 3]).length = chainFullW.n + 1 →
      ∃ K, chainFullW.stiffness_matrix = .ok K
        ∧ (∀ i, i < chainFullW.n →
            K i i = ((1 : ℚ) :: [2, 3]).getD i 0
              + ((1 : ℚ) :: [2, 3]).getD (i + 1) 0)
        ∧ (∀ i, i + 1 < chainFullW.n →
            K i (i + 1) = -(((1 : ℚ) :: [2, 3]).getD (i + 1) 0)
            ∧ K (i + 1) i = -(((1 : ℚ) :: [2, 3]).getD (i + 1) 0))) :=
  ⟨rfl, (chain1d_full_spring_list_spec chainFullW ((1 : ℚ) :: [2, 3]) rfl).1,
    (chain1d_full_spring_list_spec chainFullW ((1 : ℚ) :: [2, 3]) rfl).2⟩

/-- Mass matrix built inside `OscillatorChain1D.eigenmodes`
(`medium_1d.py` lines 146-152): `np.diag(np.full(n, m))` for scalar
mass, `np.diag(m)` for an array mass; modelled as a total function,
zero outside the diagonal block. -/
def OscillatorChain1D.massMatrix (c : OscillatorChain1D) : ℕ → ℕ → ℚ :=
  fun i j =>
    if i = j ∧ i < c.n then
      (match c.m with
        | .scalar x => x
        | .arr xs => xs.getD i 0)
    else 0

/-- Post-processing of the eigensolver output in
`OscillatorChain1D.eigenmodes` (`medium_1d.py` lines 161-162):
`eigenvalues = np.maximum(eigenvalues, 0.0); omega = np.sqrt(eigenvalues)`. -/
noncomputable def omegaFromEigs (evs : List ℝ) : List ℝ :=
  evs.map (fun l => Real.sqrt (max l 0))

/-- Modelled from the spec: a real `l` is a generalized eigenvalue of the
`2 × 2` pencil `(K, M)` iff `det(K - l*M) = 0` — the eigenproblem
`K v = ω² M v` that the spec says `eigenmodes` solves (the solver itself
is the external `scipy.linalg.eigh`). -/
def genEigRoot2 (K M : ℕ → ℕ → ℚ) (l : ℝ) : Prop :=
  ((K 0 0 : ℝ) - l * (M 0 0 : ℝ)) * ((K 1 1 : ℝ) - l * (M 1 1 : ℝ))
    - ((K 0 1 : ℝ) - l * (M 0 1 : ℝ)) * ((K 1 0 : ℝ) - l * (M 1 0 : ℝ)) = 0

/-- Modelled from the spec: the contract of the dense symmetric
generalized eigensolver on a `2 × 2` pencil — it returns the 2
generalized eigenvalues in ascending order. -/
def eighOutput2 (K M : ℕ → ℕ → ℚ) (evs : List ℝ) : Prop :=
  evs.length = 2 ∧ evs.Sorted (· ≤ ·)
    ∧ ∀ l : ℝ, l ∈ evs ↔ genEigRoot2 K M l

/-- The chain `n=2, k=1, m=1` of end-to-end scenario 1. -/
def chain2 : OscillatorChain1D := ⟨2, .scalar 1, .scalar 1, 0⟩

/-- Its assembled stiffness matrix. -/
def chain2K : ℕ → ℕ → ℚ :=
  fun i j => ∑ t ∈ Finset.range 2, chainContrib [1, 1, 1] 2 t i j

theorem chain2_root_iff (l : ℝ) :
    genEigRoot2 chain2K chain2.massMatrix l ↔ l = 1 ∨ l = 3 := by
  have e00 : chain2K 0 0 = 2 := by
    norm_num [chain2K, chainContrib, Finset.sum_range_succ]
  have e01 : chain2K 0 1 = -1 := by
    norm_num [chain2K, chainContrib, Finset.sum_range_succ]
  have e10 : chain2K 1 0 = -1 := by
    norm_num [chain2K, chainContrib, Finset.sum_range_succ]
  have e11 : chain2K 1 1 = 2 := by
    norm_num [chain2K, chainContrib, Finset.sum_range_succ]
  have m00 : chain2.massMatrix 0 0 = 1 := by
    norm_num [OscillatorChain1D.massMatrix, chain2]
  have m01 : chain2.massMatrix 0 1 = 0 := by
    norm_num [OscillatorChain1D.massMatrix, chain2]
  have m10 : chain2.massMatrix 1 0 = 0 := by
    norm_num [OscillatorChain1D.massMatrix, chain2]
  have m11 : chain2.massMatrix 1 1 = 1 := by
    norm_num [OscillatorChain1D.massMatrix, chain2]
  simp only [genEigRoot2, e00, e01, e10, e11, m00, m01, m10, m11]
  push_cast
  constructor
  · intro h
    have hfac : (l - 1) * (l - 3) = 0 := by linear_combination h
    rcases mul_eq_zero.1 hfac with h1 | h1
    · left
      linarith
    · right
      linarith
  · rintro (rfl | rfl) <;> ring

/-- **C3.** For the chain `n=2, k=1, m=1`: `stiffness_matrix()` is
exactly `[[2,-1],[-1,2]]`, and for any eigenvalue list satisfying the
ascending generalized-eigensolver contract, `eigenmodes()` returns the
eigenfrequencies `[1, √3]`. -/
theorem chain1d_scenario1_spec (evs : List ℝ)
    (h : eighOutput2 chain2K chain2.massMatrix evs) :
    chain2.stiffness_matrix = .ok chain2K
    ∧ chain2K 0 0 = 2 ∧ chain2K 0 1 = -1 ∧ chain2K 1 0 = -1
    ∧ chain2K 1 1 = 2
    ∧ (∀ i j, 2 ≤ i ∨ 2 ≤ j → chain2K i j = 0)
    ∧ omegaFromEigs evs = [1, Real.sqrt 3] := by
  obtain ⟨hlen, hsort, hmem⟩ := h
  refine ⟨rfl, by norm_num [chain2K, chainContrib, Finset.sum_range_succ],
    by norm_num [chain2K, chainContrib, Finset.sum_range_succ],
    by norm_num [chain2K, chainContrib, Finset.sum_range_succ],
    by norm_num [chain2K, chainContrib, Finset.sum_range_succ], ?_, ?_⟩
  · intro i j hij
    show (∑ t ∈ Finset.range 2, chainContrib [1, 1, 1] 2 t i j) = 0
    rcases hij with hij | hij
    · rw [chain_entry_eq, if_neg (by omega)]
    · rw [chain_entry_eq]
      by_cases hi : i < 2
      · rw [if_pos hi]
        unfold chainContrib
        split_ifs with h1 h2 h3 <;> first | ring1 | (exfalso; omega)
      · rw [if_neg hi]
  · have h1 : (1 : ℝ) ∈ evs := (hmem 1).2 ((chain2_root_iff 1).2 (Or.inl rfl))
    have h3 : (3 : ℝ) ∈ evs := (hmem 3).2 ((chain2_root_iff 3).2 (Or.inr rfl))
    match evs, hlen with
    | [a, b], _ =>
      have hab : a ≤ b := (List.sorted_cons.1 hsort).1 b (by simp)
      have ha : a = 1 ∨ a = 3 :=
        (chain2_root_iff a).1 ((hmem a).1 (by simp))
      have hb : b = 1 ∨ b = 3 :=
        (chain2_root_iff b).1 ((hmem b).1 (by simp))
      have ha1 : a = 1 := by
        rcases ha with ha | ha
        · exact ha
        · rcases hb with hb | hb
          · rw [ha, hb] at hab
            norm_num at hab
          · rw [ha, hb] at h1
            norm_num at h1
      have hb3 : b = 3 := by
        rcases hb with hb | hb
        · rw [ha1, hb] at h3
          norm_num at h3
        · exact hb
      subst ha1
      subst hb3
      have hm1 : max (1 : ℝ) 0 = 1 := by norm_num
      have hm3 : max (3 : ℝ) 0 = 3 := by norm_num
      simp only [omegaFromEigs, List.map_cons, List.map_nil, hm1, hm3,
        Real.sqrt_one]

theorem chain1d_scenario1_spec_witness :
    eighOutput2 chain2K chain2.massMatrix [1, 3]
    ∧ (chain2.stiffness_matrix = .ok chain2K
      ∧ chain2K 0 0 = 2 ∧ chain2K 0 1 = -1 ∧ chain2K 1 0 = -1
      ∧ chain2K 1 1 = 2
      ∧ (∀ i j, 2 ≤ i ∨ 2 ≤ j → chain2K i j = 0)
      ∧ omegaFromEigs [1, 3] = [1, Real.sqrt 3]) := by
  have hcon : eighOutput2 chain2K chain2.massMatrix [1, 3] := by
    refine ⟨by simp, ?_, ?_⟩
    · norm_num [List.sorted_cons]
    · intro l
      rw [chain2_root_iff l]
      simp
  exact ⟨hcon, chain1d_scenario1_spec [1, 3] hcon⟩

/-- `p.anyNonpos` decides this proposition. -/
def PyParam.HasNonpos : PyParam → Prop
  | .scalar x => x ≤ 0
  | .arr xs => ∃ x ∈ xs, x ≤ 0

/-- `p.anyNeg` decides this proposition. -/
def PyParam.HasNeg : PyParam → Prop
  | .scalar x => x < 0
  | .arr xs => ∃ x ∈ xs, x < 0

theorem anyNonpos_iff (p : PyParam) : p.anyNonpos = true ↔ p.HasNonpos := by
  cases p with
  | scalar x => simp [PyParam.anyNonpos, PyParam.HasNonpos]
  | arr xs => simp [PyParam.anyNonpos, PyParam.HasNonpos]

theorem anyNeg_iff (p : PyParam) : p.anyNeg = true ↔ p.HasNeg := by
  cases p with
  | scalar x => simp [PyParam.anyNeg, PyParam.HasNeg]
  | arr xs => simp [PyParam.anyNeg, PyParam.HasNeg]

/-- `medium_2d.OscillatorGrid2D`: 2-D grid of coupled oscillators
(fields of the dataclass).  The optional override maps are modelled as
index functions (`kx_map[i, j]` etc.). -/
structure OscillatorGrid2D where
  nx : ℕ
  ny : ℕ
  kx : ℚ
  ky : ℚ
  m : ℚ
  mass_map : Option (ℕ → ℕ → ℚ)
  kx_map : Option (ℕ → ℕ → ℚ)
  ky_map : Option (ℕ → ℕ → ℚ)

/-- Construction of an `OscillatorGrid2D` (`medium_2d.py` lines 7-37):
the dataclass defines no `__post_init__`, so the generated constructor
only assigns the fields and never raises. -/
def mkOscillatorGrid2D (nx ny : ℕ) (kx ky m : ℚ)
    (mass_map kx_map ky_map : Option (ℕ → ℕ → ℚ)) :
    Except String OscillatorGrid2D :=
  .ok ⟨nx, ny, kx, ky, m, mass_map, kx_map, ky_map⟩

/-- **C4 (counterexample).** The claim says every invalid construction
raises a validation error, but `OscillatorGrid2D` with non-positive
dimensions (`nx = ny = 0`) and negative mass/stiffness constructs
successfully: its dataclass performs no validation at all. -/
theorem construction_validation_counterexample :
    mkOscillatorGrid2D 0 0 (-1) (-1) (-1) none none none
      = .ok ⟨0, 0, -1, -1, -1, none, none, none⟩ := rfl

/-- **C4 (amended).** `OscillatorChain1D` construction raises a
validation error exactly when `n < 1`, some mass is non-positive, some
stiffness is negative, or the damping is negative — immediately, at
construction time; `OscillatorGrid2D` construction, by contrast,
performs no validation whatsoever and succeeds on every input. -/
theorem construction_validation_spec (n : ℕ) (k m : PyParam) (g : ℚ) :
    ((∃ e, mkOscillatorChain1D n k m g = .error e)
      ↔ (n = 0 ∨ m.HasNonpos ∨ k.HasNeg ∨ g < 0))
    ∧ ((¬(n = 0 ∨ m.HasNonpos ∨ k.HasNeg ∨ g < 0)) →
        mkOscillatorChain1D n k m g = .ok ⟨n, k, m, g⟩)
    ∧ (∀ nx ny kx ky mq mass_map kx_map ky_map,
        mkOscillatorGrid2D nx ny kx ky mq mass_map kx_map ky_map
          = .ok ⟨nx, ny, kx, ky, mq, mass_map, kx_map, ky_map⟩) := by
  refine ⟨⟨?_, ?_⟩, ?_, fun _ _ _ _ _ _ _ _ => rfl⟩
  · rintro ⟨e, he⟩
    simp only [mkOscillatorChain1D] at he
    split_ifs at he with h1 h2 h3 h4
    · left
      omega
    · right; left
      exact (anyNonpos_iff m).1 h2
    · right; right; left
      exact (anyNeg_iff k).1 h3
    · right; right; right
      exact h4
  · intro hvi
    simp only [mkOscillatorChain1D]
    split_ifs with h1 h2 h3 h4
    · exact ⟨_, rfl⟩
    · exact ⟨_, rfl⟩
    · exact ⟨_, rfl⟩
    · exact ⟨_, rfl⟩
    · exfalso
      rcases hvi with hvi | hvi | hvi | hvi
      · omega
      · exact absurd ((anyNonpos_iff m).2 hvi) (by simpa using h2)
      · exact absurd ((anyNeg_iff k).2 hvi) (by simpa using h3)
      · exact absurd hvi h4
  · intro hvi
    simp only [mkOscillatorChain1D]
    rw [if_neg (by omega), if_neg, if_neg, if_neg (by tauto)]
    · intro hc
      exact hvi (Or.inr (Or.inr (Or.inl ((anyNeg_iff k).1 hc))))
    · intro hc
      exact hvi (Or.inr (Or.inl ((anyNonpos_iff m).1 hc)))

theorem construction_validation_spec_witness :
    ¬((2 : ℕ) = 0 ∨ (PyParam.scalar 1).HasNonpos
        ∨ (PyParam.scalar 1).HasNeg ∨ (0 : ℚ) < 0)
    ∧ mkOscillatorChain1D 2 (.scalar 1) (.scalar 1) 0
        = .ok ⟨2, .scalar 1, .scalar 1, 0⟩ := by
  have hv : ¬((2 : ℕ) = 0 ∨ (PyParam.scalar 1).HasNonpos
      ∨ (PyParam.scalar 1).HasNeg ∨ (0 : ℚ) < 0) := by
    push_neg
    refine ⟨by norm_num, by norm_num [PyParam.HasNonpos],
      by norm_num [PyParam.HasNeg], by norm_num⟩
  exact ⟨hv,
    (construction_validation_spec 2 (.scalar 1) (.scalar 1) 0).2.1 hv⟩

/-- `get_kx` helper inside `OscillatorGrid2D.stiffness_matrix`
(`medium_2d.py` lines 50-53): the `kx_map` override if present, else the
global default `kx`. -/
def get_kx (g : OscillatorGrid2D) (i j : ℕ) : ℚ :=
  match g.kx_map with
  | some f => f i j
  | none => g.kx

/-- `get_ky` helper (`medium_2d.py` lines 55-58). -/
def get_ky (g : OscillatorGrid2D) (i j : ℕ) : ℚ :=
  match g.ky_map with
  | some f => f i j
  | none => g.ky


/-- The four link stiffnesses accumulated on the diagonal for node
`(ti, tj)` in the final assembly loop of
`OscillatorGrid2D.stiffness_matrix` (`medium_2d.py` lines 144-186):
left/right (horizontal) and up/down (vertical); a link to a missing
neighbour is a wall link with the global default `kx`/`ky` (the maps
are consulted only for links to existing neighbours). -/
def gridDiagVal (g : OscillatorGrid2D) (ti tj : ℕ) : ℚ :=
  (if tj = 0 then g.kx else get_kx g ti (tj - 1))
    + (if tj = g.nx - 1 then g.kx else get_kx g ti tj)
    + (if ti = 0 then g.ky else get_ky g (ti - 1) tj)
    + (if ti = g.ny - 1 then g.ky else get_ky g ti tj)

/-- Contribution of the loop iteration at node `(ti, tj)` of the final
assembly loop in `OscillatorGrid2D.stiffness_matrix` (`medium_2d.py`
lines 138-188) to entry `((pi, pj), (qi, qj))` of `K`: the iteration
adds the four link stiffnesses to its diagonal entry and writes the
negated link stiffness to the four neighbour entries that exist. -/
def gridContrib (g : OscillatorGrid2D) (ti tj pi pj qi qj : ℕ) : ℚ :=
  (if pi = ti ∧ pj = tj ∧ qi = ti ∧ qj = tj then gridDiagVal g ti tj
    else 0)
  + (if pi = ti ∧ pj = tj ∧ ¬(tj = 0) ∧ qi = ti ∧ qj + 1 = tj
      then -(get_kx g ti (tj - 1)) else 0)
  + (if pi = ti ∧ pj = tj ∧ ¬(tj = g.nx - 1) ∧ qi = ti ∧ qj = tj + 1
      then -(get_kx g ti tj) else 0)
  + (if pi = ti ∧ pj = tj ∧ ¬(ti = 0) ∧ qi + 1 = ti ∧ qj = tj
      then -(get_ky g (ti - 1) tj) else 0)
  + (if pi = ti ∧ pj = tj ∧ ¬(ti = g.ny - 1) ∧ qi = ti + 1 ∧ qj = tj
      then -(get_ky g ti tj) else 0)

/-- `OscillatorGrid2D.stiffness_matrix` (`medium_2d.py` lines 39-188):
the `(nx*ny) × (nx*ny)` stiffness matrix; the code linearizes node
`(i, j)` to row `i*nx + j`, modelled here by keeping the two node
coordinates as separate indices (`K (pi, pj) (qi, qj)`), zero outside
the assembled block.  The two discarded preliminary assemblies in the
source (both overwritten by `K = np.zeros(...)` before the final loop)
are not modelled. -/
def OscillatorGrid2D.stiffness_matrix (g : OscillatorGrid2D) :
    ℕ → ℕ → ℕ → ℕ → ℚ :=
  fun pi pj qi qj =>
    ∑ t ∈ Finset.range g.ny ×ˢ Finset.range g.nx,
      gridContrib g t.1 t.2 pi pj qi qj

/-- Iteration `(ti, tj)` only writes row `(ti, tj)`. -/
theorem grid_entry_eq (g : OscillatorGrid2D) (pi pj qi qj : ℕ) :
    g.stiffness_matrix pi pj qi qj
      = if pi < g.ny ∧ pj < g.nx then gridContrib g pi pj pi pj qi qj
        else 0 := by
  by_cases hp : pi < g.ny ∧ pj < g.nx
  · rw [if_pos hp]
    have hmem : (pi, pj) ∈ Finset.range g.ny ×ˢ Finset.range g.nx :=
      Finset.mem_product.2 ⟨Finset.mem_range.2 hp.1, Finset.mem_range.2 hp.2⟩
    refine Finset.sum_eq_single_of_mem (pi, pj) hmem ?_
    intro b _ hb
    have hne : ¬(pi = b.1 ∧ pj = b.2) := by
      rintro ⟨h1, h2⟩
      exact hb (Prod.ext h1.symm h2.symm)
    unfold gridContrib
    rw [if_neg (fun h => hne ⟨h.1, h.2.1⟩), if_neg (fun h => hne ⟨h.1, h.2.1⟩),
      if_neg (fun h => hne ⟨h.1, h.2.1⟩), if_neg (fun h => hne ⟨h.1, h.2.1⟩),
      if_neg (fun h => hne ⟨h.1, h.2.1⟩)]
    ring1
  · rw [if_neg hp]
    refine Finset.sum_eq_zero ?_
    intro t ht
    rw [Finset.mem_product, Finset.mem_range, Finset.mem_range] at ht
    have hne : ¬(pi = t.1 ∧ pj = t.2) := by
      rintro ⟨h1, h2⟩
      exact hp ⟨h1 ▸ ht.1, h2 ▸ ht.2⟩
    unfold gridContrib
    rw [if_neg (fun h => hne ⟨h.1, h.2.1⟩), if_neg (fun h => hne ⟨h.1, h.2.1⟩),
      if_neg (fun h => hne ⟨h.1, h.2.1⟩), if_neg (fun h => hne ⟨h.1, h.2.1⟩),
      if_neg (fun h => hne ⟨h.1, h.2.1⟩)]
    ring1

theorem grid_entry_diag (g : OscillatorGrid2D) (i j : ℕ)
    (hi : i < g.ny) (hj : j < g.nx) :
    g.stiffness_matrix i j i j = gridDiagVal g i j := by
  rw [grid_entry_eq, if_pos ⟨hi, hj⟩]
  unfold gridContrib
  rw [if_pos ⟨rfl, rfl, rfl, rfl⟩,
    if_neg (fun h => absurd h.2.2.2.2 (by omega)),
    if_neg (fun h => absurd h.2.2.2.2 (by omega)),
    if_neg (fun h => absurd h.2.2.2.1 (by omega)),
    if_neg (fun h => absurd h.2.2.2.1 (by omega))]
  ring1

theorem grid_entry_right (g : OscillatorGrid2D) (i j : ℕ)
    (hi : i < g.ny) (hj : j + 1 < g.nx) :
    g.stiffness_matrix i j i (j + 1) = -(get_kx g i j)
    ∧ g.stiffness_matrix i (j + 1) i j = -(get_kx g i j) := by
  constructor
  · rw [grid_entry_eq, if_pos ⟨hi, by omega⟩]
    unfold gridContrib
    rw [if_neg (fun h => absurd h.2.2.2 (by omega)),
      if_neg (fun h => absurd h.2.2.2.2 (by omega)),
      if_pos ⟨rfl, rfl, by omega, rfl, rfl⟩,
      if_neg (fun h => absurd h.2.2.2.1 (by omega)),
      if_neg (fun h => absurd h.2.2.2.1 (by omega))]
    ring1
  · rw [grid_entry_eq, if_pos ⟨hi, hj⟩]
    unfold gridContrib
    rw [if_neg (fun h => absurd h.2.2.2 (by omega)),
      if_pos ⟨rfl, rfl, by omega, rfl, rfl⟩,
      if_neg (fun h => absurd h.2.2.2.2 (by omega)),
      if_neg (fun h => absurd h.2.2.2.1 (by omega)),
      if_neg (fun h => absurd h.2.2.2.1 (by omega))]
    rw [Nat.add_sub_cancel]
    ring1

theorem grid_entry_down (g : OscillatorGrid2D) (i j : ℕ)
    (hi : i + 1 < g.ny) (hj : j < g.nx) :
    g.stiffness_matrix i j (i + 1) j = -(get_ky g i j)
    ∧ g.stiffness_matrix (i + 1) j i j = -(get_ky g i j) := by
  constructor
  · rw [grid_entry_eq, if_pos ⟨by omega, hj⟩]
    unfold gridContrib
    rw [if_neg (fun h => absurd h.2.2.1 (by omega)),
      if_neg (fun h => absurd h.2.2.2.2 (by omega)),
      if_neg (fun h => absurd h.2.2.2.2 (by omega)),
      if_neg (fun h => absurd h.2.2.2.1 (by omega)),
      if_pos ⟨rfl, rfl, by omega, rfl, rfl⟩]
    ring1
  · rw [grid_entry_eq, if_pos ⟨hi, hj⟩]
    unfold gridContrib
    rw [if_neg (fun h => absurd h.2.2.1 (by omega)),
      if_neg (fun h => absurd h.2.2.2.2 (by omega)),
      if_neg (fun h => absurd h.2.2.2.2 (by omega)),
      if_pos ⟨rfl, rfl, by omega, rfl, rfl⟩,
      if_neg (fun h => absurd h.2.2.2.1 (by omega))]
    rw [Nat.add_sub_cancel]
    ring1

theorem grid_entry_zero (g : OscillatorGrid2D) (pi pj qi qj : ℕ)
    (hp : pi < g.ny ∧ pj < g.nx)
    (h1 : ¬(qi = pi ∧ qj = pj))
    (h2 : ¬(qi = pi ∧ qj + 1 = pj))
    (h3 : ¬(qi = pi ∧ qj = pj + 1 ∧ pj + 1 < g.nx))
    (h4 : ¬(qi + 1 = pi ∧ qj = pj))
    (h5 : ¬(qi = pi + 1 ∧ qj = pj ∧ pi + 1 < g.ny)) :
    g.stiffness_matrix pi pj qi qj = 0 := by
  rw [grid_entry_eq, if_pos hp]
  unfold gridContrib
  rw [if_neg (fun h => h1 ⟨h.2.2.1, h.2.2.2⟩),
    if_neg (fun h => h2 ⟨h.2.2.2.1, h.2.2.2.2⟩),
    if_neg (fun h => h3 ⟨h.2.2.2.1, h.2.2.2.2, by omega⟩),
    if_neg (fun h => h4 ⟨h.2.2.2.1, h.2.2.2.2⟩),
    if_neg (fun h => h5 ⟨h.2.2.2.1, h.2.2.2.2, by omega⟩)]
  ring1

theorem grid_entry_outside (g : OscillatorGrid2D) (pi pj qi qj : ℕ)
    (hp : ¬(pi < g.ny ∧ pj < g.nx)) :
    g.stiffness_matrix pi pj qi qj = 0 := by
  rw [grid_entry_eq, if_neg hp]

/-- **C1.** For every `OscillatorGrid2D` (with or without
`mass_map`/`kx_map`/`ky_map`), `stiffness_matrix()` is symmetric, and
every diagonal entry is the sum of exactly 4 link stiffnesses (2
horizontal + 2 vertical), where a link to a missing neighbour at the
boundary is a wall link that always uses the global default `kx`
(horizontal) or `ky` (vertical) and is never overridden by
`kx_map`/`ky_map`. -/
theorem grid2d_stiffness_spec (g : OscillatorGrid2D) (pi pj : ℕ)
    (hp1 : pi < g.ny) (hp2 : pj < g.nx) :
    (∀ qi qj, g.stiffness_matrix pi pj qi qj
        = g.stiffness_matrix qi qj pi pj)
    ∧ g.stiffness_matrix pi pj pi pj
        = (if pj = 0 then g.kx else get_kx g pi (pj - 1))
          + (if pj = g.nx - 1 then g.kx else get_kx g pi pj)
          + (if pi = 0 then g.ky else get_ky g (pi - 1) pj)
          + (if pi = g.ny - 1 then g.ky else get_ky g pi pj) := by
  constructor
  · intro qi qj
    by_cases hq : qi < g.ny ∧ qj < g.nx
    · by_cases hd : qi = pi ∧ qj = pj
      · obtain ⟨rfl, rfl⟩ := hd
        rfl
      · by_cases hr : qi = pi ∧ qj = pj + 1
        · obtain ⟨h1, h2⟩ := hr
          rw [h1, h2]
          have h := grid_entry_right g pi pj hp1 (by omega)
          rw [h.1, h.2]
        · by_cases hl : qi = pi ∧ pj = qj + 1
          · obtain ⟨h1, h2⟩ := hl
            rw [h1, h2]
            have h := grid_entry_right g pi qj hp1 (by omega)
            rw [h.1, h.2]
          · by_cases hdn : qi = pi + 1 ∧ qj = pj
            · obtain ⟨h1, h2⟩ := hdn
              rw [h1, h2]
              have h := grid_entry_down g pi pj (by omega) hp2
              rw [h.1, h.2]
            · by_cases hu : pi = qi + 1 ∧ qj = pj
              · obtain ⟨h1, h2⟩ := hu
                rw [h2, h1]
                have h := grid_entry_down g qi pj (by omega) hp2
                rw [h.1, h.2]
              · rw [grid_entry_zero g pi pj qi qj ⟨hp1, hp2⟩
                    (by omega) (by omega) (by omega) (by omega) (by omega),
                  grid_entry_zero g qi qj pi pj ⟨hq.1, hq.2⟩
                    (by omega) (by omega) (by omega) (by omega) (by omega)]
    · rw [grid_entry_outside g qi qj pi pj hq,
        grid_entry_zero g pi pj qi qj ⟨hp1, hp2⟩
          (by omega) (by omega) (by omega) (by omega) (by omega)]
  · rw [grid_entry_diag g pi pj hp1 hp2]
    rfl

/-- A concrete 2×2 grid with stiffness override maps present. -/
def gridW : OscillatorGrid2D :=
  ⟨2, 2, 3, 5, 1, none,
    some (fun i j => 10 + i + 2 * j), some (fun i j => 20 + 3 * i + j)⟩

theorem grid2d_stiffness_spec_witness :
    (0 : ℕ) < gridW.ny
    ∧ (1 : ℕ) < gridW.nx
    ∧ ((∀ qi qj, gridW.stiffness_matrix 0 1 qi qj
          = gridW.stiffness_matrix qi qj 0 1)
      ∧ gridW.stiffness_matrix 0 1 0 1
          = (if 1 = 0 then gridW.kx else get_kx gridW 0 (1 - 1))
            + (if 1 = gridW.nx - 1 then gridW.kx else get_kx gridW 0 1)
            + (if 0 = 0 then gridW.ky else get_ky gridW (0 - 1) 1)
            + (if 0 = gridW.ny - 1 then gridW.ky else get_ky gridW 0 1)) :=
  ⟨by norm_num [gridW], by norm_num [gridW],
    grid2d_stiffness_spec gridW 0 1 (by norm_num [gridW])
      (by norm_num [gridW])⟩

/-- The boolean frequency-window mask of `ldos_from_modes` (`ldos.py`
line 27): `(omegas >= w_min) & (omegas <= w_max)`, closed interval. -/
def inWindow (w : ℚ × ℚ) (om : ℚ) : Bool :=
  decide (w.1 ≤ om ∧ om ≤ w.2)

/-- `ldos_from_modes` (`ldos.py` lines 3-39): mask the mode frequencies
into the closed window; if nothing is selected return the zero vector
of length `N_points`; otherwise, for each spatial row of `modes`, sum
the squares of the selected columns. -/
def ldos_from_modes (modes : List (List ℚ)) (omegas : List ℚ)
    (freq_window : ℚ × ℚ) : List ℚ :=
  if omegas.all (fun om => !(inWindow freq_window om)) then
    List.replicate modes.length 0
  else
    modes.map (fun row =>
      (((row.zip omegas).filter (fun p => inWindow freq_window p.2)).map
        (fun p => p.1 ^ 2)).sum)

theorem inWindow_true_iff (w : ℚ × ℚ) (om : ℚ) :
    inWindow w om = true ↔ (w.1 ≤ om ∧ om ≤ w.2) := by
  simp [inWindow]

theorem inWindow_false_iff (w : ℚ × ℚ) (om : ℚ) :
    (!(inWindow w om)) = true ↔ ¬(w.1 ≤ om ∧ om ≤ w.2) := by
  simp only [inWindow, Bool.not_eq_true', decide_eq_false_iff_not]

/-- A masked row sum equals the index-wise conditional sum. -/
theorem masked_row_sum (w : ℚ × ℚ) :
    ∀ (xs ys : List ℚ), xs.length = ys.length →
      (((xs.zip ys).filter (fun p => inWindow w p.2)).map
          (fun p => p.1 ^ 2)).sum
        = ∑ j ∈ Finset.range ys.length,
            if w.1 ≤ ys.getD j 0 ∧ ys.getD j 0 ≤ w.2
            then xs.getD j 0 ^ 2 else 0 := by
  intro xs
  induction xs with
  | nil =>
    intro ys h
    have : ys = [] := List.length_eq_zero.1 h.symm
    subst this
    simp
  | cons x xs ih =>
    intro ys h
    cases ys with
    | nil => simp at h
    | cons y ys' =>
      have hlen : xs.length = ys'.length := by
        simpa using h
      simp only [List.length_cons]
      rw [Finset.sum_range_succ']
      simp only [List.zip_cons_cons, List.filter_cons, List.getD_cons_succ,
        List.getD_cons_zero]
      by_cases hy : inWindow w y = true
      · rw [if_pos hy]
        have hy' : w.1 ≤ y ∧ y ≤ w.2 := (inWindow_true_iff w y).1 hy
        simp only [List.map_cons, List.sum_cons, ih ys' hlen, if_pos hy']
        ring
      · rw [if_neg hy]
        have hy' : ¬(w.1 ≤ y ∧ y ≤ w.2) :=
          fun hc => hy ((inWindow_true_iff w y).2 hc)
        rw [ih ys' hlen, if_neg hy']
        ring

/-- **C5.** `ldos_from_modes` selects the modes whose frequency lies in
the closed window; it returns the all-zero vector of length `N_points`
when no frequency falls in the window, and otherwise returns, for each
spatial point, the sum of the squares of the selected mode columns at
that point. -/
theorem ldos_from_modes_spec (modes : List (List ℚ)) (omegas : List ℚ)
    (w : ℚ × ℚ) (hlen : ∀ row ∈ modes, row.length = omegas.length) :
    ((∀ om ∈ omegas, ¬(w.1 ≤ om ∧ om ≤ w.2)) →
        ldos_from_modes modes omegas w = List.replicate modes.length 0)
    ∧ (ldos_from_modes modes omegas w).length = modes.length
    ∧ (∀ i, i < modes.length →
        (ldos_from_modes modes omegas w).getD i 0
          = ∑ j ∈ Finset.range omegas.length,
              if w.1 ≤ omegas.getD j 0 ∧ omegas.getD j 0 ≤ w.2
              then (modes.getD i []).getD j 0 ^ 2 else 0) := by
  refine ⟨?_, ?_, ?_⟩
  · intro hnone
    rw [ldos_from_modes, if_pos]
    rw [List.all_eq_true]
    intro om hom
    exact (inWindow_false_iff w om).2 (hnone om hom)
  · rw [ldos_from_modes]
    by_cases hall : omegas.all (fun om => !(inWindow w om)) = true
    · rw [if_pos hall]
      simp
    · rw [if_neg hall]
      simp
  · intro i hi
    rw [ldos_from_modes]
    by_cases hall : omegas.all (fun om => !(inWindow w om)) = true
    · rw [if_pos hall]
      rw [List.all_eq_true] at hall
      have hz : ((List.replicate modes.length (0 : ℚ)).getD i 0) = 0 :=
        getD_replicate_of_lt 0 modes.length i hi
      rw [hz]
      refine (Finset.sum_eq_zero ?_).symm
      intro j hj
      rw [Finset.mem_range] at hj
      have hmem : omegas.getD j 0 ∈ omegas := by
        rw [List.getD_eq_getElem _ _ hj]
        exact List.getElem_mem hj
      have := (inWindow_false_iff w _).1 (hall _ hmem)
      rw [if_neg this]
    · rw [if_neg hall]
      have hrow : (modes.getD i []) ∈ modes := by
        rw [List.getD_eq_getElem _ _ hi]
        exact List.getElem_mem hi
      have hmap : ((modes.map (fun row =>
          (((row.zip omegas).filter (fun p => inWindow w p.2)).map
            (fun p => p.1 ^ 2)).sum)).getD i 0)
          = (((((modes.getD i []).zip omegas).filter
              (fun p => inWindow w p.2)).map (fun p => p.1 ^ 2)).sum) := by
        rw [List.getD_eq_getElem _ _ (by simpa using hi),
          List.getElem_map, List.getD_eq_getElem _ _ hi]
      rw [hmap, masked_row_sum w _ _ (hlen _ hrow)]

theorem ldos_from_modes_spec_witness :
    (∀ row ∈ [[(1 : ℚ), 2], [3, 4]], row.length = [(5 : ℚ), 10].length)
    ∧ (((∀ om ∈ [(5 : ℚ), 10], ¬((4 : ℚ) ≤ om ∧ om ≤ (6 : ℚ))) →
        ldos_from_modes [[(1 : ℚ), 2], [3, 4]] [5, 10] (4, 6)
          = List.replicate ([[(1 : ℚ), 2], [3, 4]]).length 0)
      ∧ (ldos_from_modes [[(1 : ℚ), 2], [3, 4]] [5, 10] (4, 6)).length
          = ([[(1 : ℚ), 2], [3, 4]]).length
      ∧ (∀ i, i < ([[(1 : ℚ), 2], [3, 4]]).length →
          (ldos_from_modes [[(1 : ℚ), 2], [3, 4]] [5, 10] (4, 6)).getD i 0
            = ∑ j ∈ Finset.range ([(5 : ℚ), 10]).length,
                if (4 : ℚ) ≤ ([(5 : ℚ), 10]).getD j 0
                    ∧ ([(5 : ℚ), 10]).getD j 0 ≤ (6 : ℚ)
                then (([[(1 : ℚ), 2], [3, 4]]).getD i []).getD j 0 ^ 2
                else 0)) := by
  have hl : ∀ row ∈ [[(1 : ℚ), 2], [3, 4]],
      row.length = [(5 : ℚ), 10].length := by
    intro row hrow
    simp only [List.mem_cons, List.not_mem_nil, or_false] at hrow
    rcases hrow with rfl | rfl <;> simp
  exact ⟨hl, ldos_from_modes_spec [[(1 : ℚ), 2], [3, 4]] [5, 10] (4, 6) hl⟩

/-- `ndt.NDTProfile` (`ndt.py` lines 5-13): statistical profile of the
healthy LDOS map (stored flattened here). -/
structure NDTProfile where
  freq_window : ℚ × ℚ
  ldos_mean : List ℚ
  ldos_std : List ℚ

/-- `np.max` over a non-empty list (`np.max` raises on an empty array;
the empty case is kept out of this helper and handled at the call
site). -/
def listMax : List ℚ → ℚ
  | [] => 0
  | x :: xs => xs.foldl max x

/-- `score_ndt_state` (`ndt.py` lines 83-105): `diff = |current - mean|`
elementwise; if `max(std) > epsilon` return `diff / (std + epsilon)`
elementwise, else return `diff` (the source binds `diff` once; it is
inlined in both branches here).  `np.max` on an empty `std` raises. -/
def score_ndt_state (profile : NDTProfile) (ldos_current : List ℚ)
    (epsilon : ℚ) : Except String (List ℚ) :=
  if profile.ldos_std.isEmpty then
    .error "ValueError: zero-size array to reduction operation maximum"
  else if listMax profile.ldos_std > epsilon then
    .ok ((((ldos_current.zip profile.ldos_mean).map
        (fun p => |p.1 - p.2|)).zip profile.ldos_std).map
      (fun p => p.1 / (p.2 + epsilon)))
  else .ok ((ldos_current.zip profile.ldos_mean).map
    (fun p => |p.1 - p.2|))

theorem zip_map_getD (f : ℚ × ℚ → ℚ) :
    ∀ (xs ys : List ℚ) (i : ℕ), i < xs.length → i < ys.length →
      ((xs.zip ys).map f).getD i 0 = f (xs.getD i 0, ys.getD i 0) := by
  intro xs
  induction xs with
  | nil =>
    intro ys i h1 _
    simp at h1
  | cons x xs ih =>
    intro ys i h1 h2
    cases ys with
    | nil => simp at h2
    | cons y ys' =>
      cases i with
      | zero => simp
      | succ n =>
        simp only [List.zip_cons_cons, List.map_cons, List.getD_cons_succ]
        exact ih ys' n (by simpa using h1) (by simpa using h2)

theorem mem_zip_self : ∀ (xs : List ℚ) (p : ℚ × ℚ), p ∈ xs.zip xs → p.1 = p.2 := by
  intro xs
  induction xs with
  | nil =>
    intro p hp
    simp at hp
  | cons a l ih =>
    intro p hp
    simp only [List.zip_cons_cons, List.mem_cons] at hp
    rcases hp with rfl | hp
    · rfl
    · exact ih p hp

/-- **C6.** `score_ndt_state(profile, ldos_current, epsilon)` returns
`|ldos_current - profile.ldos_mean| / (profile.ldos_std + epsilon)`
elementwise when `max(profile.ldos_std) > epsilon`, and the raw
elementwise absolute difference otherwise; consequently, whenever
`ldos_current` equals `profile.ldos_mean` exactly, the result is the
all-zero map regardless of the std values. -/
theorem score_ndt_state_spec (profile : NDTProfile) (cur : List ℚ)
    (eps : ℚ) (hne : profile.ldos_std ≠ [])
    (hc : cur.length = profile.ldos_mean.length)
    (hs : profile.ldos_std.length = profile.ldos_mean.length)
    (hstd : ∀ s ∈ profile.ldos_std, 0 ≤ s) (heps : 0 < eps) :
    ∃ score, score_ndt_state profile cur eps = .ok score
      ∧ score.length = cur.length
      ∧ (listMax profile.ldos_std > eps →
          ∀ i, i < cur.length →
            score.getD i 0
              = |cur.getD i 0 - profile.ldos_mean.getD i 0|
                / (profile.ldos_std.getD i 0 + eps))
      ∧ (¬(listMax profile.ldos_std > eps) →
          ∀ i, i < cur.length →
            score.getD i 0
              = |cur.getD i 0 - profile.ldos_mean.getD i 0|)
      ∧ (cur = profile.ldos_mean → ∀ x ∈ score, x = 0) := by
  have hdiff_len : ((cur.zip profile.ldos_mean).map
      (fun p => |p.1 - p.2|)).length = cur.length := by
    simp [List.length_zip, hc]
  have habs : ∀ x ∈ (profile.ldos_mean.zip profile.ldos_mean).map
      (fun p : ℚ × ℚ => |p.1 - p.2|), x = 0 := by
    intro x hx
    rw [List.mem_map] at hx
    obtain ⟨q, hq, rfl⟩ := hx
    rw [mem_zip_self _ _ hq, sub_self, abs_zero]
  by_cases hmax : listMax profile.ldos_std > eps
  · refine ⟨(((cur.zip profile.ldos_mean).map (fun p => |p.1 - p.2|)).zip
        profile.ldos_std).map (fun p => p.1 / (p.2 + eps)),
      ?_, ?_, ?_, ?_, ?_⟩
    · rw [score_ndt_state,
        if_neg (fun hc => hne (List.isEmpty_iff.1 hc)), if_pos hmax]
    · simp [List.length_zip, hdiff_len, hs, hc]
    · intro _ i hi
      rw [zip_map_getD _ _ _ i (by omega) (by omega),
        zip_map_getD _ _ _ i (by omega) (by omega)]
    · intro hcon
      exact absurd hmax hcon
    · intro hcur x hx
      rw [hcur] at hx
      rw [List.mem_map] at hx
      obtain ⟨q, hq, rfl⟩ := hx
      obtain ⟨a, b⟩ := q
      have hab := List.of_mem_zip hq
      have ha : a = 0 := habs a hab.1
      show a / (b + eps) = 0
      rw [ha]
      exact zero_div _
  · refine ⟨(cur.zip profile.ldos_mean).map (fun p => |p.1 - p.2|),
      ?_, ?_, ?_, ?_, ?_⟩
    · rw [score_ndt_state,
        if_neg (fun hc => hne (List.isEmpty_iff.1 hc)), if_neg hmax]
    · exact hdiff_len
    · intro hcon
      exact absurd hcon hmax
    · intro _ i hi
      rw [zip_map_getD _ _ _ i (by omega) (by omega)]
    · intro hcur x hx
      rw [hcur] at hx
      exact habs x hx

def ndtW : NDTProfile := ⟨(0, 10), [1, 2], [1, 0]⟩

theorem score_ndt_state_spec_witness :
    ndtW.ldos_std ≠ []
    ∧ ([(1 : ℚ), 2]).length = ndtW.ldos_mean.length
    ∧ ndtW.ldos_std.length = ndtW.ldos_mean.length
    ∧ (∀ s ∈ ndtW.ldos_std, 0 ≤ s)
    ∧ (0 : ℚ) < 1/2
    ∧ (∃ score, score_ndt_state ndtW [1, 2] (1/2) = .ok score
        ∧ score.length = ([(1 : ℚ), 2]).length
        ∧ (listMax ndtW.ldos_std > 1/2 →
            ∀ i, i < ([(1 : ℚ), 2]).length →
              score.getD i 0
                = |([(1 : ℚ), 2]).getD i 0 - ndtW.ldos_mean.getD i 0|
                  / (ndtW.ldos_std.getD i 0 + 1/2))
        ∧ (¬(listMax ndtW.ldos_std > 1/2) →
            ∀ i, i < ([(1 : ℚ), 2]).length →
              score.getD i 0
                = |([(1 : ℚ), 2]).getD i 0 - ndtW.ldos_mean.getD i 0|)
        ∧ ([(1 : ℚ), 2] = ndtW.ldos_mean → ∀ x ∈ score, x = 0)) :=
  ⟨by simp [ndtW], by simp [ndtW], by simp [ndtW], by norm_num [ndtW],
    by norm_num,
    score_ndt_state_spec ndtW [1, 2] (1/2) (by simp [ndtW])
      (by simp [ndtW]) (by simp [ndtW]) (by norm_num [ndtW])
      (by norm_num)⟩

/-- Modelled from the spec: the `Spectrum` data type that `material.py`
consumes — `{omega, power}` with `len(omega) == len(power)` (spec §3).
The `Spectrum1D` present under `src/spectrum.py` is the legacy
`freqs/amps` variant; the `omega`/`power` class used by `material.py`,
`io.py` and the tests is missing from `src/`. -/
structure Spectrum where
  omega : List ℚ
  power : List ℚ

/-- Modelled from the spec (§4.1): `total_power()` is the sum of the
power values. -/
def Spectrum.total_power (s : Spectrum) : ℚ :=
  s.power.sum

/-- Modelled from the spec (§4.1): `normalize()` returns a new Spectrum
with power divided by `total_power()`, and fails with a domain error if
the total power is exactly zero. -/
def Spectrum.normalize (s : Spectrum) : Except String Spectrum :=
  if s.total_power = 0 then
    .error "ValueError: Cannot normalize spectrum with zero total power"
  else .ok ⟨s.omega, s.power.map (fun x => x / s.total_power)⟩

/-- `material.MaterialSignature` (`material.py` lines 6-18): wraps the
reference spectrum. -/
structure MaterialSignature where
  reference : Spectrum

/-- The squared L2 distance computed inside
`MaterialSignature.distance_l2` (`material.py` lines 20-54): raises on
mismatched frequency grids (exact equality), normalizes both spectra,
then sums the squared differences of the normalized power vectors. -/
def distance_l2_sq (ref other : Spectrum) : Except String ℚ :=
  if ref.omega = other.omega then
    match ref.normalize, other.normalize with
    | .error e, _ => .error e
    | .ok _, .error e => .error e
    | .ok rn, .ok on2 =>
      .ok (((rn.power.zip on2.power).map (fun p => (p.1 - p.2) ^ 2)).sum)
  else .error "ValueError: Frequency grids do not match"

/-- `MaterialSignature.distance_l2` (`material.py` lines 20-54): the
square root of the summed squared differences of the normalized power
vectors. -/
noncomputable def MaterialSignature.distance_l2 (sig : MaterialSignature)
    (other : Spectrum) : Except String ℝ :=
  (distance_l2_sq sig.reference other).map (fun q => Real.sqrt (q : ℝ))

theorem sum_map_mul_left (c : ℚ) :
    ∀ l : List ℚ, (l.map (fun x => c * x)).sum = c * l.sum := by
  intro l
  induction l with
  | nil => simp
  | cons x xs ih =>
    simp [ih]
    ring

/-- Uniformly rescaling the power vector does not change `normalize()`:
the scale factor cancels against the rescaled total power. -/
theorem normalize_scale (a : Spectrum) (c : ℚ) (hc : c ≠ 0) :
    Spectrum.normalize ⟨a.omega, a.power.map (fun x => c * x)⟩
      = a.normalize := by
  have htot : (Spectrum.total_power
      ⟨a.omega, a.power.map (fun x => c * x)⟩) = c * a.total_power := by
    simp only [Spectrum.total_power]
    exact sum_map_mul_left c a.power
  rw [Spectrum.normalize, Spectrum.normalize, htot]
  by_cases h0 : a.total_power = 0
  · rw [if_pos (by rw [h0]; ring), if_pos h0]
  · rw [if_neg (by
      intro hcon
      rcases mul_eq_zero.1 hcon with h | h
      · exact hc h
      · exact h0 h), if_neg h0]
    congr 1
    simp only [htot]
    rw [List.map_map]
    have hfun : ((fun x => x / (c * a.total_power)) ∘ fun x => c * x)
        = fun x : ℚ => x / a.total_power := by
      funext x
      simp only [Function.comp_apply]
      exact mul_div_mul_left x a.total_power hc
    rw [hfun]

theorem distance_l2_sq_scale_left (a b : Spectrum) (c : ℚ) (hc : c ≠ 0) :
    distance_l2_sq ⟨a.omega, a.power.map (fun x => c * x)⟩ b
      = distance_l2_sq a b := by
  rw [distance_l2_sq, distance_l2_sq]
  simp only [normalize_scale a c hc]

theorem distance_l2_sq_scale_right (a b : Spectrum) (c : ℚ) (hc : c ≠ 0) :
    distance_l2_sq a ⟨b.omega, b.power.map (fun x => c * x)⟩
      = distance_l2_sq a b := by
  rw [distance_l2_sq, distance_l2_sq]
  simp only [normalize_scale b c hc]

theorem distance_l2_sq_self (s : Spectrum) (hs : s.total_power ≠ 0) :
    distance_l2_sq s s = .ok 0 := by
  have hzero : ∀ (l : List ℚ),
      ((l.zip l).map (fun p : ℚ × ℚ => (p.1 - p.2) ^ 2)).sum = 0 := by
    intro l
    refine List.sum_eq_zero ?_
    intro x hx
    rw [List.mem_map] at hx
    obtain ⟨q, hq, rfl⟩ := hx
    rw [mem_zip_self _ _ hq, sub_self]
    ring
  have hnorm : s.normalize
      = .ok ⟨s.omega, s.power.map (fun x => x / s.total_power)⟩ := by
    rw [Spectrum.normalize, if_neg hs]
  rw [distance_l2_sq, if_pos rfl, hnorm]
  exact congrArg Except.ok (hzero _)

/-- **C7.** For every spectrum with nonzero total power,
`MaterialSignature(reference=spec).distance_l2(spec)` is `0`, and for
every positive constant `c`, `distance_l2` is unchanged when either
side's power vector is uniformly rescaled by `c` (normalization cancels
the amplitude before the Euclidean distance is taken). -/
theorem distance_l2_spec (s a b : Spectrum) (c : ℚ)
    (hs : s.total_power ≠ 0) (hc : 0 < c) :
    (MaterialSignature.mk s).distance_l2 s = .ok 0
    ∧ (MaterialSignature.mk ⟨a.omega, a.power.map (fun x => c * x)⟩).distance_l2 b
        = (MaterialSignature.mk a).distance_l2 b
    ∧ (MaterialSignature.mk a).distance_l2 ⟨b.omega, b.power.map (fun x => c * x)⟩
        = (MaterialSignature.mk a).distance_l2 b := by
  refine ⟨?_, ?_, ?_⟩
  · show (distance_l2_sq s s).map (fun q => Real.sqrt (q : ℝ)) = .ok 0
    rw [distance_l2_sq_self s hs]
    refine congrArg Except.ok ?_
    show Real.sqrt ((0 : ℚ) : ℝ) = 0
    rw [Rat.cast_zero, Real.sqrt_zero]
  · show (distance_l2_sq ⟨a.omega, a.power.map (fun x => c * x)⟩ b).map
        (fun q => Real.sqrt (q : ℝ))
      = (distance_l2_sq a b).map (fun q => Real.sqrt (q : ℝ))
    rw [distance_l2_sq_scale_left a b c (ne_of_gt hc)]
  · show (distance_l2_sq a ⟨b.omega, b.power.map (fun x => c * x)⟩).map
        (fun q => Real.sqrt (q : ℝ))
      = (distance_l2_sq a b).map (fun q => Real.sqrt (q : ℝ))
    rw [distance_l2_sq_scale_right a b c (ne_of_gt hc)]

theorem distance_l2_spec_witness :
    (Spectrum.total_power ⟨[1], [2]⟩ ≠ 0)
    ∧ (0 : ℚ) < 3
    ∧ ((MaterialSignature.mk ⟨[1], [2]⟩).distance_l2 ⟨[1], [2]⟩ = .ok 0
      ∧ (MaterialSignature.mk ⟨(⟨[1], [5]⟩ : Spectrum).omega,
            (⟨[1], [5]⟩ : Spectrum).power.map (fun x => 3 * x)⟩).distance_l2
            ⟨[1], [7]⟩
          = (MaterialSignature.mk ⟨[1], [5]⟩).distance_l2 ⟨[1], [7]⟩
      ∧ (MaterialSignature.mk ⟨[1], [5]⟩).distance_l2
            ⟨(⟨[1], [7]⟩ : Spectrum).omega,
              (⟨[1], [7]⟩ : Spectrum).power.map (fun x => 3 * x)⟩
          = (MaterialSignature.mk ⟨[1], [5]⟩).distance_l2 ⟨[1], [7]⟩) :=
  ⟨by norm_num [Spectrum.total_power], by norm_num,
    (distance_l2_spec ⟨[1], [2]⟩ ⟨[1], [5]⟩ ⟨[1], [7]⟩ 3
      (by norm_num [Spectrum.total_power]) (by norm_num)).1,
    (distance_l2_spec ⟨[1], [2]⟩ ⟨[1], [5]⟩ ⟨[1], [7]⟩ 3
      (by norm_num [Spectrum.total_power]) (by norm_num)).2.1,
    (distance_l2_spec ⟨[1], [2]⟩ ⟨[1], [5]⟩ ⟨[1], [7]⟩ 3
      (by norm_num [Spectrum.total_power]) (by norm_num)).2.2⟩

/-- `MaterialSignature.is_anomalous` (`material.py` lines 88-109):
`distance_l2(other) > threshold`. -/
noncomputable def MaterialSignature.is_anomalous (sig : MaterialSignature)
    (other : Spectrum) (threshold : ℝ) : Except String Prop :=
  (sig.distance_l2 other).map (fun d => d > threshold)

/-- `material.HealthProfile` (`material.py` lines 126-132): mapping of
channel name to signature, modelled as an association list in insertion
order (Python dict iteration order).  The optional
`feature_signatures` field is not involved in the claims and is
omitted. -/
structure HealthProfile where
  signatures : List (String × MaterialSignature)

/-- The loop of `HealthProfile.score` (`material.py` lines 134-143):
iterate the profile's channels in order; skip a channel absent from
`current`; otherwise compute `distance_l2` (whose exception
propagates). -/
noncomputable def scoreAux :
    List (String × MaterialSignature) → List (String × Spectrum) →
      Except String (List (String × ℝ))
  | [], _ => .ok []
  | (nm, sig) :: rest, cur =>
    match List.lookup nm cur with
    | none => scoreAux rest cur
    | some sp =>
      match sig.distance_l2 sp, scoreAux rest cur with
      | .error e, _ => .error e
      | .ok _, .error e => .error e
      | .ok d, .ok tail => .ok ((nm, d) :: tail)

/-- `HealthProfile.score` (`material.py` lines 134-143). -/
noncomputable def HealthProfile.score (p : HealthProfile)
    (current : List (String × Spectrum)) :
    Except String (List (String × ℝ)) :=
  scoreAux p.signatures current

/-- The loop of `HealthProfile.is_anomalous` (`material.py` lines
169-182): iterate the profile's channels; skip a channel absent from
`current` or from `thresholds`; otherwise record
`signature.is_anomalous(current[name], thresholds[name])`. -/
noncomputable def isAnomalousAux :
    List (String × MaterialSignature) → List (String × Spectrum) →
      List (String × ℝ) → Except String (List (String × Prop))
  | [], _, _ => .ok []
  | (nm, sig) :: rest, cur, thr =>
    match List.lookup nm cur, List.lookup nm thr with
    | some sp, some t =>
      (match sig.is_anomalous sp t, isAnomalousAux rest cur thr with
        | .error e, _ => .error e
        | .ok _, .error e => .error e
        | .ok v, .ok tail => .ok ((nm, v) :: tail))
    | some _, none => isAnomalousAux rest cur thr
    | none, _ => isAnomalousAux rest cur thr

/-- `HealthProfile.is_anomalous` (`material.py` lines 169-182). -/
noncomputable def HealthProfile.is_anomalous (p : HealthProfile)
    (current : List (String × Spectrum)) (thresholds : List (String × ℝ)) :
    Except String (List (String × Prop)) :=
  isAnomalousAux p.signatures current thresholds

theorem scoreAux_keys :
    ∀ (sigs : List (String × MaterialSignature))
      (cur : List (String × Spectrum)) (res : List (String × ℝ)),
      scoreAux sigs cur = .ok res →
      res.map Prod.fst
        = (sigs.map Prod.fst).filter
            (fun nm => (List.lookup nm cur).isSome) := by
  intro sigs
  induction sigs with
  | nil =>
    intro cur res h
    simp only [scoreAux] at h
    injection h with h
    subst h
    simp
  | cons hd rest ih =>
    intro cur res h
    obtain ⟨nm, sig⟩ := hd
    simp only [scoreAux] at h
    cases hcl : List.lookup nm cur with
    | none =>
      simp only [hcl] at h
      simp only [List.map_cons, List.filter_cons, hcl, Option.isSome_none,
        Bool.false_eq_true, if_false]
      exact ih cur res h
    | some sp =>
      simp only [hcl] at h
      cases hd1 : sig.distance_l2 sp with
      | error e =>
        simp only [hd1] at h
        exact absurd h (by simp)
      | ok d =>
        simp only [hd1] at h
        cases hrec : scoreAux rest cur with
        | error e2 =>
          simp only [hrec] at h
          exact absurd h (by simp)
        | ok tail =>
          simp only [hrec] at h
          injection h with h
          subst h
          simp only [List.map_cons, List.filter_cons, hcl,
            Option.isSome_some, if_true]
          rw [ih cur tail hrec]

theorem scoreAux_total :
    ∀ (sigs : List (String × MaterialSignature))
      (cur : List (String × Spectrum)),
      (∀ nm sig sp, (nm, sig) ∈ sigs → List.lookup nm cur = some sp →
        ∃ d, MaterialSignature.distance_l2 sig sp = .ok d) →
      ∃ res, scoreAux sigs cur = .ok res := by
  intro sigs
  induction sigs with
  | nil =>
    intro cur _
    exact ⟨[], rfl⟩
  | cons hd rest ih =>
    intro cur hok
    obtain ⟨nm, sig⟩ := hd
    obtain ⟨tail, htail⟩ := ih cur
      (fun nm2 sig2 sp2 hmem hlk => hok nm2 sig2 sp2 (List.mem_cons_of_mem _ hmem) hlk)
    cases hcl : List.lookup nm cur with
    | none =>
      refine ⟨tail, ?_⟩
      simp only [scoreAux, hcl]
      exact htail
    | some sp =>
      obtain ⟨d, hd⟩ := hok nm sig sp (List.mem_cons_self _ _) hcl
      refine ⟨(nm, d) :: tail, ?_⟩
      simp only [scoreAux, hcl, hd, htail]

theorem isAnomalousAux_keys :
    ∀ (sigs : List (String × MaterialSignature))
      (cur : List (String × Spectrum)) (thr : List (String × ℝ))
      (res : List (String × Prop)),
      isAnomalousAux sigs cur thr = .ok res →
      res.map Prod.fst
        = (sigs.map Prod.fst).filter
            (fun nm => (List.lookup nm cur).isSome
              && (List.lookup nm thr).isSome) := by
  intro sigs
  induction sigs with
  | nil =>
    intro cur thr res h
    simp only [isAnomalousAux] at h
    injection h with h
    subst h
    simp
  | cons hd rest ih =>
    intro cur thr res h
    obtain ⟨nm, sig⟩ := hd
    simp only [isAnomalousAux] at h
    cases hcl : List.lookup nm cur with
    | none =>
      simp only [hcl] at h
      simp only [List.map_cons, List.filter_cons, hcl, Option.isSome_none,
        Bool.false_and, Bool.false_eq_true, if_false]
      exact ih cur thr res h
    | some sp =>
      simp only [hcl] at h
      cases hct : List.lookup nm thr with
      | none =>
        simp only [hct] at h
        simp only [List.map_cons, List.filter_cons, hcl, hct,
          Option.isSome_some, Option.isSome_none, Bool.true_and,
          Bool.false_eq_true, if_false]
        exact ih cur thr res h
      | some t =>
        simp only [hct] at h
        cases hv : sig.is_anomalous sp t with
        | error e =>
          simp only [hv] at h
          exact absurd h (by simp)
        | ok v =>
          simp only [hv] at h
          cases hrec : isAnomalousAux rest cur thr with
          | error e2 =>
            simp only [hrec] at h
            exact absurd h (by simp)
          | ok tail =>
            simp only [hrec] at h
            injection h with h
            subst h
            simp only [List.map_cons, List.filter_cons, hcl, hct,
              Option.isSome_some, Bool.true_and, if_true]
            rw [ih cur thr tail hrec]

theorem isAnomalousAux_total :
    ∀ (sigs : List (String × MaterialSignature))
      (cur : List (String × Spectrum)) (thr : List (String × ℝ)),
      (∀ nm sig sp t, (nm, sig) ∈ sigs → List.lookup nm cur = some sp →
        List.lookup nm thr = some t →
        ∃ v, MaterialSignature.is_anomalous sig sp t = .ok v) →
      ∃ res, isAnomalousAux sigs cur thr = .ok res := by
  intro sigs
  induction sigs with
  | nil =>
    intro cur thr _
    exact ⟨[], rfl⟩
  | cons hd rest ih =>
    intro cur thr hok
    obtain ⟨nm, sig⟩ := hd
    obtain ⟨tail, htail⟩ := ih cur thr
      (fun nm2 sig2 sp2 t2 hmem hlk hlt =>
        hok nm2 sig2 sp2 t2 (List.mem_cons_of_mem _ hmem) hlk hlt)
    cases hcl : List.lookup nm cur with
    | none =>
      refine ⟨tail, ?_⟩
      simp only [isAnomalousAux, hcl]
      exact htail
    | some sp =>
      cases hct : List.lookup nm thr with
      | none =>
        refine ⟨tail, ?_⟩
        simp only [isAnomalousAux, hcl, hct]
        exact htail
      | some t =>
        obtain ⟨v, hv⟩ := hok nm sig sp t (List.mem_cons_self _ _) hcl hct
        refine ⟨(nm, v) :: tail, ?_⟩
        simp only [isAnomalousAux, hcl, hct, hv, htail]

/-- **C8.** `HealthProfile.score(current)` and
`HealthProfile.is_anomalous(current, thresholds)` iterate only the
channels present in the profile's signatures and silently omit from the
returned mapping, without raising any error, every channel that is
absent from `current` or (for `is_anomalous`) absent from `thresholds`:
the returned keys are exactly the profile channels found in `current`
(and in `thresholds`), and the calls succeed whenever the distance
computations of the channels that are present succeed. -/
theorem healthprofile_skip_spec (p : HealthProfile)
    (cur : List (String × Spectrum)) (thr : List (String × ℝ)) :
    (∀ res, p.score cur = .ok res →
        res.map Prod.fst
          = (p.signatures.map Prod.fst).filter
              (fun nm => (List.lookup nm cur).isSome))
    ∧ ((∀ nm sig sp, (nm, sig) ∈ p.signatures →
          List.lookup nm cur = some sp →
          ∃ d, MaterialSignature.distance_l2 sig sp = .ok d) →
        ∃ res, p.score cur = .ok res)
    ∧ (∀ res, p.is_anomalous cur thr = .ok res →
        res.map Prod.fst
          = (p.signatures.map Prod.fst).filter
              (fun nm => (List.lookup nm cur).isSome
                && (List.lookup nm thr).isSome))
    ∧ ((∀ nm sig sp t, (nm, sig) ∈ p.signatures →
          List.lookup nm cur = some sp → List.lookup nm thr = some t →
          ∃ v, MaterialSignature.is_anomalous sig sp t = .ok v) →
        ∃ res, p.is_anomalous cur thr = .ok res) :=
  ⟨fun res h => scoreAux_keys p.signatures cur res h,
    fun h => scoreAux_total p.signatures cur h,
    fun res h => isAnomalousAux_keys p.signatures cur thr res h,
    fun h => isAnomalousAux_total p.signatures cur thr h⟩

def specW2 : Spectrum := ⟨[1], [2]⟩

def profW : HealthProfile := ⟨[("a", ⟨specW2⟩), ("b", ⟨⟨[1], [3]⟩⟩)]⟩

def curW : List (String × Spectrum) := [("a", specW2)]

def thrW : List (String × ℝ) := [("a", 1)]

theorem healthprofile_skip_spec_witness :
    (∀ res, profW.score curW = .ok res →
        res.map Prod.fst
          = (profW.signatures.map Prod.fst).filter
              (fun nm => (List.lookup nm curW).isSome))
    ∧ ((∀ nm sig sp, (nm, sig) ∈ profW.signatures →
          List.lookup nm curW = some sp →
          ∃ d, MaterialSignature.distance_l2 sig sp = .ok d) →
        ∃ res, profW.score curW = .ok res)
    ∧ (∀ res, profW.is_anomalous curW thrW = .ok res →
        res.map Prod.fst
          = (profW.signatures.map Prod.fst).filter
              (fun nm => (List.lookup nm curW).isSome
                && (List.lookup nm thrW).isSome))
    ∧ ((∀ nm sig sp t, (nm, sig) ∈ profW.signatures →
          List.lookup nm curW = some sp → List.lookup nm thrW = some t →
          ∃ v, MaterialSignature.is_anomalous sig sp t = .ok v) →
        ∃ res, profW.is_anomalous curW thrW = .ok res) :=
  healthprofile_skip_spec profW curW thrW

/-- `spectrum.Spectrum1D` (`spectrum.py` lines 3-30): the legacy
`freqs`/`amps`/`phases` spectrum class of `src/spectrum.py` (its
constructor shape checks are not involved in the claims). -/
structure Spectrum1D where
  freqs : List ℝ
  amps : List ℝ
  phases : List ℝ

/-- `Spectrum1D.power` (`spectrum.py` lines 32-34): `amps ** 2`. -/
def Spectrum1D.power (s : Spectrum1D) : List ℝ :=
  s.amps.map (fun a => a ^ 2)

/-- `Spectrum1D.total_power` (`spectrum.py` lines 36-38). -/
def Spectrum1D.total_power (s : Spectrum1D) : ℝ :=
  s.power.sum

/-- `Spectrum1D.normalize_power` (`spectrum.py` lines 40-56): if the
total power is zero, return unchanged for `target == 0` and raise a
`ValueError` otherwise; else scale `amps` in place by
`sqrt(target / total_power)`.  The in-place mutation is modelled by
returning the updated record, whose `freqs` and `phases` are the very
arrays of the receiver. -/
noncomputable def Spectrum1D.normalize_power (s : Spectrum1D)
    (target : ℝ) : Except String Spectrum1D :=
  if s.total_power = 0 then
    if target = 0 then .ok s
    else .error
      "ValueError: Cannot normalize zero power spectrum to non-zero target"
  else
    .ok ⟨s.freqs,
      s.amps.map (fun a => a * Real.sqrt (target / s.total_power)),
      s.phases⟩

/-- **C10.** For every `Spectrum1D` whose `total_power()` is 0,
`normalize_power(target)` raises a `ValueError` iff `target` is
nonzero; when `target` is 0 it returns normally with `freqs`, `amps`
and `phases` unchanged; and in every non-error case only `amps`
changes: the result keeps the receiver's `freqs` and `phases`. -/
theorem normalize_power_spec (s : Spectrum1D) (target : ℝ)
    (h0 : s.total_power = 0) :
    ((∃ e, s.normalize_power target = .error e) ↔ target ≠ 0)
    ∧ (target = 0 → s.normalize_power target = .ok s)
    ∧ (∀ (s' : Spectrum1D) (t' : ℝ) (r : Spectrum1D),
        s'.normalize_power t' = .ok r →
        r.freqs = s'.freqs ∧ r.phases = s'.phases) := by
  refine ⟨⟨?_, ?_⟩, ?_, ?_⟩
  · rintro ⟨e, he⟩ ht
    rw [Spectrum1D.normalize_power, if_pos h0, if_pos ht] at he
    exact absurd he (by simp)
  · intro ht
    refine ⟨"ValueError: Cannot normalize zero power spectrum to non-zero target", ?_⟩
    rw [Spectrum1D.normalize_power, if_pos h0, if_neg ht]
  · intro ht
    rw [Spectrum1D.normalize_power, if_pos h0, if_pos ht]
  · intro s' t' r h
    rw [Spectrum1D.normalize_power] at h
    split_ifs at h with h1 h2
    · injection h with h
      subst h
      exact ⟨rfl, rfl⟩
    · injection h with h
      subst h
      exact ⟨rfl, rfl⟩

theorem normalize_power_spec_witness :
    Spectrum1D.total_power ⟨[1], [0], [0]⟩ = 0
    ∧ (((∃ e, Spectrum1D.normalize_power ⟨[1], [0], [0]⟩ 2 = .error e)
          ↔ (2 : ℝ) ≠ 0)
      ∧ ((2 : ℝ) = 0 →
          Spectrum1D.normalize_power ⟨[1], [0], [0]⟩ 2
            = .ok ⟨[1], [0], [0]⟩)
      ∧ (∀ (s' : Spectrum1D) (t' : ℝ) (r : Spectrum1D),
          s'.normalize_power t' = .ok r →
          r.freqs = s'.freqs ∧ r.phases = s'.phases)) :=
  ⟨by norm_num [Spectrum1D.total_power, Spectrum1D.power],
    normalize_power_spec ⟨[1], [0], [0]⟩ 2
      (by norm_num [Spectrum1D.total_power, Spectrum1D.power])⟩
